import Mathlib

/-!
Verification development for the `activity-vocabulary` binding generator and
its runtime primitives (`activity-vocabulary-core`).

The Rust sources are shallowly embedded: JSON value trees become the `Json`
inductive type, serde deserializers become functions `Json → Except String α`,
and serde serializers become functions into `Json` (or into lists of object
entries).  `HashMap`s are modelled as association lists whose operational
semantics (insert-overwrite, `extend`) mirror the std collections used by the
source.  Machine integers of the source (`u64`, `i64`) are modelled as `Nat`
and `Int`; none of the verified paths exercise wrap-around.
-/

namespace ActivityVocab

/-- A JSON value tree, the input/output type of every codec in the crate
(`serde_json::Value` / `serde_value::Value` on the Rust side). -/
inductive Json where
  | null : Json
  | bool (b : Bool) : Json
  | num (n : Int) : Json
  | str (s : String) : Json
  | arr (xs : List Json) : Json
  | obj (fields : List (String × Json)) : Json

/-- A serde deserializer specialised to the JSON value tree: it either
produces a value or fails with an error message. -/
abbrev Decoder (α : Type) := Json → Except String α

/-! ### Association-list model of `HashMap` -/

/-- `HashMap::insert`: replace the binding of `k` if present, else add it. -/
def insertAssoc {γ : Type} : List (String × γ) → String → γ → List (String × γ)
  | [], k, v => [(k, v)]
  | (k0, v0) :: rest, k, v =>
    if k0 = k then (k, v) :: rest else (k0, v0) :: insertAssoc rest k v

/-- Binding lookup in the association-list model of `HashMap`. -/
def lookupAssoc {γ : Type} : List (String × γ) → String → Option γ
  | [], _ => none
  | (k0, v0) :: rest, k => if k0 = k then some v0 else lookupAssoc rest k

/-- `HashMap::extend(other)` (the `MergeableProperty` impl for `HashMap` in
`activity-vocabulary-core/src/lib.rs`): every binding of `other` is inserted
into `self`, overwriting an existing binding for the same key. -/
def mapExtend {γ : Type} (m other : List (String × γ)) : List (String × γ) :=
  other.foldl (fun acc kv => insertAssoc acc kv.1 kv.2) m

/-! ### The `Property` cardinality container (core lib.rs, lines 59-98) -/

/-- `Vec::<T>::deserialize` over a JSON value: succeeds exactly on arrays
whose every element decodes. -/
def vecDecode {α : Type} (dec : Decoder α) : Decoder (List α) := fun j =>
  match j with
  | Json.arr xs => xs.mapM dec
  | _ => .error "invalid type: expected a sequence"

/-- `Option::<T>::deserialize` over a JSON value: `null` is `None`, anything
else must decode as `T`. -/
def optionDecode {α : Type} (dec : Decoder α) : Decoder (Option α) := fun j =>
  match j with
  | Json.null => .ok none
  | _ => (dec j).map some

/-- `impl Deserialize for Property<T>` (core lib.rs, lines 77-92): first try
the sequence shape, then fall back to the optional-scalar shape against the
same input, combining both error messages on double failure. -/
def propertyDecode {α : Type} (dec : Decoder α) : Decoder (List α) := fun j =>
  match vecDecode dec j with
  | .ok inner => .ok inner
  | .error seqErr =>
    match optionDecode dec j with
    | .ok inner => .ok inner.toList
    | .error optErr => .error (seqErr ++ " & " ++ optErr)

/-- `impl Serialize for Property<T>` (core lib.rs, lines 62-75): a singleton
serializes bare, two or more elements serialize as an array, and the empty
sequence serializes as `None` (which the generated struct serializer never
reaches because of `should_skip`). -/
def serializeProperty {α : Type} (enc : α → Json) (xs : List α) : Json :=
  match xs with
  | [inner] => enc inner
  | _ => if xs.length > 1 then Json.arr (xs.map enc) else Json.null

/-- `SkipSerialization for Property` (core lib.rs, lines 176-180). -/
def shouldSkipProperty {α : Type} (xs : List α) : Bool := xs.isEmpty

/-- The serializer statement the binding generator emits for a non-Required
property (`generate_serialize_impl`, derive lib.rs lines 203-209, and
`PropertyKind::serializing_stmt` in gen.rs): emit the entry only when
`should_skip` is false. -/
def normalPropertyEntry {α : Type} (tag : String) (enc : α → Json)
    (xs : List α) : List (String × Json) :=
  if shouldSkipProperty xs then [] else [(tag, serializeProperty enc xs)]

/-! ### The ordered either-of sum `Or<L, R>` (core lib.rs, lines 100-134) -/

/-- `Or<T, U>` with the source's constructor names. -/
inductive OrSum (α β : Type) where
  | Prim (l : α) : OrSum α β
  | Snd (r : β) : OrSum α β

/-- `impl Deserialize for Or<L, R>` (core lib.rs, lines 106-122): attempt a
complete decode as `L`; only on failure attempt a complete decode of the same
input as `R`; on double failure combine both messages. -/
def orDecode {α β : Type} (dl : Decoder α) (dr : Decoder β) :
    Decoder (OrSum α β) := fun j =>
  match dl j with
  | .ok left => .ok (OrSum.Prim left)
  | .error leftErr =>
    match dr j with
    | .ok right => .ok (OrSum.Snd right)
    | .error rightErr => .error (leftErr ++ " and " ++ rightErr)

/-! ### The language container (core lib.rs, lines 188-255) -/

/-- `LangContainer<T>`: a language-neutral default plus a per-language map. -/
structure LangContainer (α : Type) where
  default : Option α
  perLang : List (String × α)

/-- `MergeableProperty for Property<T>`: `Vec::extend`, i.e. concatenation. -/
def propertyMerge {α : Type} (a b : List α) : List α := a ++ b

/-! ### The generated `visit_map` loop (derive lib.rs, `generate_deserialize_impl`)

The generated deserializer scans the object entries once.  Each recognized
key updates the slot (`Option` placeholder) of the property it maps to.  We
model the scan per property: `isKey` is the recognized-key predicate obtained
from the generated `__Fields` match arms (canonical tag plus aliases), and
entries whose key is not recognized are ignored. -/

/-- The match arm generated for a `Normal`-kind slot (derive lib.rs lines
383-399 and 427-436): a first occurrence fills the slot, a later occurrence
merges into it via the slot type's `MergeableProperty` impl, passed here as
`merge`. -/
def decodeFieldMerged {σ : Type} (dec : Decoder σ) (merge : σ → σ → σ)
    (isKey : String → Bool) (entries : List (String × Json)) :
    Except String (Option σ) :=
  entries.foldlM
    (fun slot kv =>
      if isKey kv.1 then
        match slot with
        | some occupied => (dec kv.2).map (fun v => some (merge occupied v))
        | none => (dec kv.2).map some
      else
        pure slot)
    none

/-- The match arm generated for a `Required`/`Functional`-kind slot (derive
lib.rs lines 403-419 and 439-448): a second occurrence of any key mapping to
the property is a fatal duplicate-field error naming the property, raised
before the new value is even read. -/
def decodeFieldUnique {σ : Type} (dec : Decoder σ) (name : String)
    (isKey : String → Bool) (entries : List (String × Json)) :
    Except String (Option σ) :=
  entries.foldlM
    (fun slot kv =>
      if isKey kv.1 then
        match slot with
        | some _ => .error ("duplicate field " ++ name)
        | none => (dec kv.2).map some
      else
        pure slot)
    none

/-! ### Schema model and `preferred_property_name` resolution (derive gen.rs) -/

/-- `PropertyKind` (identical in derive lib.rs and gen.rs). -/
inductive PropertyKind where
  | Required : PropertyKind
  | Functional : PropertyKind
  | Normal : PropertyKind
deriving DecidableEq

/-- The `Simple` arm of `PropertyDef` (derive gen.rs lines 19-31).  `aka` is
the alias set; sets are modelled as lists with membership semantics. -/
structure SimplePropertyDef where
  tag : Option String
  propertyType : String
  aka : List String
  uri : String
  doc : String
  kind : PropertyKind

/-- The `LangContainer` arm of `PropertyDef` (derive gen.rs lines 32-46). -/
structure LangPropertyDef where
  tag : Option String
  propertyType : String
  containerTag : String
  aka : List String
  containerAka : List String
  uri : String
  doc : String
  kind : PropertyKind

/-- `PreferredPropertyName` (derive gen.rs lines 49-53). -/
inductive PreferredPropertyName where
  | Simple (tag : String) : PreferredPropertyName
  | LangContainer (default : String) (container : String) : PreferredPropertyName

/-- `rename_default_name` (derive gen.rs lines 130-194), `Simple` case: the
previous default name (explicit tag, or the property name when no tag is set)
is inserted into the alias set and the preferred name becomes the tag.
Returns `none` on the shape-mismatch error path. -/
def renameDefaultNameSimple (preferred : Option PreferredPropertyName)
    (propertyName : String) (def_ : SimplePropertyDef) :
    Option SimplePropertyDef :=
  match preferred with
  | none => some def_
  | some (PreferredPropertyName.Simple p) =>
    let defaultName := def_.tag.getD propertyName
    some { def_ with tag := some p, aka := defaultName :: def_.aka }
  | some (PreferredPropertyName.LangContainer _ _) => none

/-- `rename_default_name` (derive gen.rs lines 162-188), `LangContainer`
case: the previous default tag joins `aka`, the previous container tag joins
`container_aka`, and the preferred pair becomes the new tags. -/
def renameDefaultNameLang (preferred : Option PreferredPropertyName)
    (propertyName : String) (def_ : LangPropertyDef) :
    Option LangPropertyDef :=
  match preferred with
  | none => some def_
  | some (PreferredPropertyName.LangContainer d c) =>
    let defaultTag := def_.tag.getD propertyName
    some { def_ with
            tag := some d
            containerTag := c
            aka := defaultTag :: def_.aka
            containerAka := def_.containerTag :: def_.containerAka }
  | some (PreferredPropertyName.Simple _) => none

/-- The wire keys the generated label visitor resolves to a simple property
(`gen_label_deserialize_helper_for_struct`, derive gen.rs lines 381-388:
`aka` plus the canonical tag; and identically the `__Fields` match arms of
derive lib.rs lines 301-345). -/
def recognizedKeysSimple (propertyName : String) (def_ : SimplePropertyDef) :
    List String :=
  def_.aka ++ [def_.tag.getD propertyName]

/-- The canonical wire tag the generated serializer writes for a simple
property (`gen_serialize_stmt`, derive gen.rs lines 250-253: the explicit tag
if set, else the property name). -/
def serializeTagSimple (propertyName : String) (def_ : SimplePropertyDef) :
    String :=
  def_.tag.getD propertyName

/-- The serializer tag selection of the older generator
(`generate_serialize_impl`, derive lib.rs lines 196-202): the preferred name
if the type declares one, else the property's own tag. -/
def serializeTagLib (preferred : Option PreferredPropertyName)
    (propertyName : String) (def_ : SimplePropertyDef) : Option String :=
  match preferred with
  | none => some (def_.tag.getD propertyName)
  | some (PreferredPropertyName.Simple p) => some p
  | some (PreferredPropertyName.LangContainer _ _) => none

/-! ### The `Required` language-container build step (claim C3)

The two generators build the final `LangContainer` field from its two slots
differently.  The slots below are the loop placeholders: `dflt` is the slot
of the default-value wire key, `perLang` the slot of the language-map wire
key; `none` means the key never occurred. -/

/-- Build step of the older generator (`generate_deserialize_impl`, derive
lib.rs lines 462-470): each half independently raises `missing field` when
its own wire key never occurred, so both keys must be present. -/
def buildRequiredLangLib {α : Type} (name mapName : String)
    (dflt : Option (Option α)) (perLang : Option (List (String × α))) :
    Except String (LangContainer α) :=
  match dflt with
  | none => .error ("missing field " ++ name)
  | some d =>
    match perLang with
    | none => .error ("missing field " ++ mapName)
    | some p => .ok { default := d, perLang := p }

/-- Build step of the generator invoked by `build.rs` (`gen_build_field`,
derive gen.rs lines 508-527): `missing field` is raised only when the
default slot is empty AND the language map holds no entry; otherwise both
halves default.  (The emitted Rust calls `is_empty` on the `Option` slot and
names the slot after `container_tag`; we model the guard it expresses:
no default value and no language entries.) -/
def buildRequiredLangGen {α : Type} (name : String)
    (dflt : Option α) (perLang : Option (List (String × α))) :
    Except String (LangContainer α) :=
  if dflt.isNone && (perLang.getD []).isEmpty then
    .error ("missing field " ++ name)
  else
    .ok { default := dflt, perLang := perLang.getD [] }

/-! ### Subtype-envelope decoding (claim C2)

`TaggedContentVisitor` (core lib.rs, lines 421-462) scans the object once,
buffering every entry into a `BTreeMap` and decoding the value under the
discriminant key with the tag type's deserializer; the generated envelope
deserializer (`generate_subtypes_deserialize`, derive lib.rs lines 711-814)
then dispatches on the resolved tag and feeds the buffered content to the
chosen subtype's deserializer. -/

/-- `BTreeMap` insertion: ordered by key, overwriting an equal key. -/
def btreeInsert : List (String × Json) → String → Json → List (String × Json)
  | [], k, v => [(k, v)]
  | (k0, v0) :: rest, k, v =>
    if k = k0 then (k, v) :: rest
    else if k < k0 then (k, v) :: (k0, v0) :: rest
    else (k0, v0) :: btreeInsert rest k v

/-- One iteration of `TaggedContentVisitor::visit_map` (core lib.rs, lines
450-459): the entry is buffered into the `BTreeMap`; an entry under `tagKey`
additionally has its value decoded by `decTag`, the failure propagating
immediately, and the decoded tag replaces any earlier one. -/
def taggedStep (tagKey : String) (decTag : Decoder String)
    (acc : Option String × List (String × Json)) (kv : String × Json) :
    Except String (Option String × List (String × Json)) := do
  let tag ← if kv.1 = tagKey then do
      pure (some (← decTag kv.2))
    else
      pure acc.1
  pure (tag, btreeInsert acc.2 kv.1 kv.2)

/-- `TaggedContentVisitor::visit_map` (core lib.rs, lines 444-461): scan all
entries, returning the last decoded tag (if any) and the buffered content. -/
def taggedContentVisit (tagKey : String) (decTag : Decoder String)
    (entries : List (String × Json)) :
    Except String (Option String × List (String × Json)) :=
  entries.foldlM (taggedStep tagKey decTag) (none, [])

/-- The generated `__Fields` deserializer of the subtype envelope
(`generate_subtypes_deserialize`, derive lib.rs lines 765-802): a string that
is a known subtype name resolves to its label; any other string fails with
the `missing field "type"` error; a non-string discriminant fails because the
visitor only accepts strings. -/
def envelopeFieldsDecode {τ : Type} (table : List (String × Decoder τ)) :
    Decoder String := fun j =>
  match j with
  | Json.str s =>
    if (lookupAssoc table s).isSome then .ok s
    else .error "missing field type"
  | _ => .error "invalid type: expected the type discriminant string"

/-- The generated `Deserialize` impl of the subtype envelope (derive lib.rs
lines 752-813): run `TaggedContentVisitor` over the object, then dispatch the
resolved tag through the per-subtype match arms against the buffered content.
When no discriminant occurred the tag falls back to the tag enum's `Default`
value — which the generated enum never derives; the intended default label is
passed here explicitly as `defaultLabel`. -/
def envelopeDecode {τ : Type} (table : List (String × Decoder τ))
    (defaultLabel : String) : Decoder τ := fun j =>
  match j with
  | Json.obj entries => do
    let (tag, content) ← taggedContentVisit "type" (envelopeFieldsDecode table) entries
    match lookupAssoc table (tag.getD defaultLabel) with
    | some dec => dec (Json.obj content)
    | none => .error "unknown envelope variant"
  | _ => .error "invalid type: expected an object"

/-! ### Decimal digit printing and scanning

Rust's `{}` / `{:0w}` formatting of unsigned integers and the digit scanning
done by `nom` and `chrono` are modelled over `List Char`. -/

/-- The decimal digit character for `n % 10`-style arguments. -/
def digitChar (n : Nat) : Char :=
  match n with
  | 0 => '0' | 1 => '1' | 2 => '2' | 3 => '3' | 4 => '4'
  | 5 => '5' | 6 => '6' | 7 => '7' | 8 => '8' | _ => '9'

/-- Little-endian digit accumulation, structurally recursive on a fuel bound
so that it evaluates inside the kernel; `fuel ≥ n` renders the bound inert. -/
def natDigitsRevAux : Nat → Nat → List Char
  | _, 0 => []
  | 0, _ + 1 => []
  | fuel + 1, n + 1 => digitChar ((n + 1) % 10) :: natDigitsRevAux fuel ((n + 1) / 10)

/-- Little-endian digit list of `n` (empty for `0`). -/
def natDigitsRev (n : Nat) : List Char := natDigitsRevAux n n

/-- Rust `{}` formatting of an unsigned integer: its decimal digits. -/
def natDigits (n : Nat) : List Char :=
  if n = 0 then ['0'] else (natDigitsRev n).reverse

/-- Rust `{}` formatting of a signed integer. -/
def intDigits (n : Int) : List Char :=
  (if n < 0 then ['-'] else []) ++ natDigits n.natAbs

/-- Rust `{:0w}` formatting: left-pad the decimal digits with zeros to width
`w` (longer numbers keep all their digits). -/
def padNum (w n : Nat) : List Char :=
  List.replicate (w - (natDigits n).length) '0' ++ natDigits n

/-- Numeric value of a scanned digit character. -/
def digitVal (c : Char) : Nat := c.toNat - 48

/-- Decimal value accumulated over a digit list. -/
def digitsValFrom (acc : Nat) (ds : List Char) : Nat :=
  ds.foldl (fun a c => a * 10 + digitVal c) acc

/-! ### XSD `Duration` (core xsd.rs, lines 80-195)

The `nom` combinators of `parse_duration` are modelled over `List Char`:
a parser returns the parsed value and the remaining input, or `none` on the
error paths; `opt` backtracks exactly as `nom::combinator::opt` does. -/

/-- `xsd::Duration`: sign, calendar components (`u64`), and the
`chrono::Duration` time component, modelled by its whole-second count (every
value the parser builds carries zero sub-second nanoseconds). -/
structure Duration where
  negative : Bool
  years : Nat
  months : Nat
  days : Nat
  secs : Int

/-- `nom::bytes::complete::tag` for a single-character tag. -/
def pTag (t : Char) : List Char → Option (List Char)
  | c :: rest => if c = t then some rest else none
  | [] => none

/-- `nom::combinator::opt(tag t)`: consume the tag if present. -/
def pOptTag (t : Char) (cs : List Char) : Bool × List Char :=
  match pTag t cs with
  | some rest => (true, rest)
  | none => (false, cs)

/-- Longest digit prefix of the input. -/
def spanDigits : List Char → List Char × List Char
  | [] => ([], [])
  | c :: rest =>
    if c.isDigit then
      let (ds, tail) := spanDigits rest
      (c :: ds, tail)
    else
      ([], c :: rest)

/-- `nom::character::complete::u64`: one or more digits. -/
def pU64 (cs : List Char) : Option (Nat × List Char) :=
  let (ds, rest) := spanDigits cs
  if ds.isEmpty then none else some (digitsValFrom 0 ds, rest)

/-- `nom::character::complete::i64`: an optional sign, then digits. -/
def pI64 (cs : List Char) : Option (Int × List Char) :=
  match cs with
  | '-' :: rest => (pU64 rest).map (fun p => (-(p.1 : Int), p.2))
  | '+' :: rest => (pU64 rest).map (fun p => ((p.1 : Int), p.2))
  | _ => (pU64 cs).map (fun p => ((p.1 : Int), p.2))

/-- `opt(tuple((u64, tag t)))`: backtrack fully unless both succeed. -/
def pOptU64Tag (t : Char) (cs : List Char) : Option Nat × List Char :=
  match pU64 cs with
  | some (n, rest) =>
    match pTag t rest with
    | some rest2 => (some n, rest2)
    | none => (none, cs)
  | none => (none, cs)

/-- `opt(tuple((i64, tag t)))`: backtrack fully unless both succeed. -/
def pOptI64Tag (t : Char) (cs : List Char) : Option Int × List Char :=
  match pI64 cs with
  | some (n, rest) =>
    match pTag t rest with
    | some rest2 => (some n, rest2)
    | none => (none, cs)
  | none => (none, cs)

/-- `parse_duration_time_section` (core xsd.rs, lines 120-130): a mandatory
`T`, then optional hour/minute/second components (each defaulting to zero),
then end of input. -/
def parseDurationTimeSection (cs : List Char) :
    Option ((Int × Int × Int) × List Char) := do
  let cs ← pTag 'T' cs
  let (hours, cs) := pOptI64Tag 'H' cs
  let (minutes, cs) := pOptI64Tag 'M' cs
  let (seconds, cs) := pOptI64Tag 'S' cs
  if cs.isEmpty then
    some ((hours.getD 0, minutes.getD 0, seconds.getD 0), cs)
  else
    none

/-- `parse_duration` (core xsd.rs, lines 132-156): `P`, an optional sign,
optional year/month/day components, then the time section — which the source
requires unconditionally (`parse_duration_time_section(src)?`, line 141, with
no `opt`) — then end of input.  The time components are combined as
`chrono::Duration::hours(h) + minutes(m) + seconds(s)`. -/
def parseDuration (cs : List Char) : Option Duration := do
  let cs ← pTag 'P' cs
  let (negative, cs) := pOptTag '-' cs
  let (years, cs) := pOptU64Tag 'Y' cs
  let (months, cs) := pOptU64Tag 'M' cs
  let (days, cs) := pOptU64Tag 'D' cs
  let ((hours, minutes, seconds), cs) ← parseDurationTimeSection cs
  if cs.isEmpty then
    some { negative := negative
           years := years.getD 0
           months := months.getD 0
           days := days.getD 0
           secs := hours * 3600 + minutes * 60 + seconds }
  else
    none

/-- `impl FromStr for Duration` (core xsd.rs, lines 180-186). -/
def durationFromStr (s : String) : Option Duration := parseDuration s.data

/-- `impl Display for Duration` (core xsd.rs, lines 89-117), translated
line by line.  Note two peculiarities of the source reproduced here: the
months component is formatted from `self.years` (line 99), and the guard of
the time section is `!self.duration.num_seconds() != 0` (line 104), where `!`
on an `i64` value `n` is bitwise complement, i.e. `-(n + 1)`.  `num_hours`
and `num_minutes` truncate toward zero and `%` keeps the dividend's sign,
i.e. `Int.tdiv` / `Int.tmod`. -/
def displayDuration (d : Duration) : List Char :=
  ['P']
  ++ (if d.negative then ['-'] else [])
  ++ (if d.years ≠ 0 then natDigits d.years ++ ['Y'] else [])
  ++ (if d.months ≠ 0 then natDigits d.years ++ ['M'] else [])
  ++ (if d.days ≠ 0 then natDigits d.days ++ ['D'] else [])
  ++ (if -(d.secs + 1) ≠ 0 then
        ['T']
        ++ (if d.secs.tdiv 3600 ≠ 0 then
              intDigits (d.secs.tdiv 3600) ++ ['H'] else [])
        ++ (if (d.secs.tdiv 60).tmod 60 ≠ 0 then
              intDigits ((d.secs.tdiv 60).tmod 60) ++ ['M'] else [])
        ++ (if d.secs.tmod 60 ≠ 0 then
              intDigits (d.secs.tmod 60) ++ ['S'] else [])
      else [])

/-- The re-encoding layout that claim C9 is amended to: identical to
`displayDuration` except that each condition is phrased as the spec reads it
— the time section appears unless the second count is exactly `-1`, the hour
component appears when the magnitude reaches a full hour — and the months
component is explicitly documented as borrowing the years magnitude. -/
def durationDisplayAmended (d : Duration) : List Char :=
  ['P']
  ++ (if d.negative then ['-'] else [])
  ++ (if d.years ≠ 0 then natDigits d.years ++ ['Y'] else [])
  ++ (if d.months ≠ 0 then natDigits d.years ++ ['M'] else [])
  ++ (if d.days ≠ 0 then natDigits d.days ++ ['D'] else [])
  ++ (if d.secs = -1 then []
      else
        ['T']
        ++ (if d.secs.tdiv 3600 ≠ 0 then
              intDigits (d.secs.tdiv 3600) ++ ['H'] else [])
        ++ (if (d.secs.tdiv 60).tmod 60 ≠ 0 then
              intDigits ((d.secs.tdiv 60).tmod 60) ++ ['M'] else [])
        ++ (if d.secs.tmod 60 ≠ 0 then
              intDigits (d.secs.tmod 60) ++ ['S'] else []))

/-! ### XSD `DateTime` (core xsd.rs, lines 19-78)

`xsd::DateTime` wraps either a `chrono::NaiveDateTime` or a
`chrono::DateTime<FixedOffset>`.  Both are modelled by their civil fields;
the offset variant stores the civil fields of the *local* time (what
`parse_from_rfc3339` reads and `to_rfc3339` writes) together with the offset,
and its equality — like chrono's `PartialEq` — compares the UTC instants.
The parsing and formatting done inside chrono is modelled from chrono's
documented grammar: RFC3339 (`parse_from_rfc3339`), the naive format string
`%Y-%m-%dT%H:%M:%S%.f`, and `to_rfc3339_opts(SecondsFormat::Secs, false)`.
Leap seconds (second 60, encoded by chrono as nanos ≥ 10^9) are not
modelled. -/

/-- Civil date-time fields plus sub-second nanoseconds
(`chrono::NaiveDateTime`).  Years are modelled as `Nat`: the common-era dates
the vocabulary carries; chrono's proleptic years outside 0000-9999 print with
a width the RFC3339 parser rejects and are excluded by the round-trip
hypotheses anyway. -/
structure NaiveDT where
  year : Nat
  month : Nat
  day : Nat
  hour : Nat
  minute : Nat
  second : Nat
  nanos : Nat
deriving DecidableEq

/-- `chrono::DateTime<FixedOffset>`: the local civil fields together with
the fixed offset, in minutes (RFC3339 offsets are whole minutes). -/
structure OffsetDT where
  civil : NaiveDT
  offsetMinutes : Int
deriving DecidableEq

/-- `xsd::DateTime` (core xsd.rs, lines 20-23). -/
inductive DateTime where
  | Naive (d : NaiveDT) : DateTime
  | WithOffset (d : OffsetDT) : DateTime
deriving DecidableEq

/-- Scan exactly `w` digit characters into a number. -/
def parseDigitsAcc : Nat → Nat → List Char → Option (Nat × List Char)
  | 0, acc, cs => some (acc, cs)
  | w + 1, acc, c :: cs =>
    if c.isDigit then parseDigitsAcc w (acc * 10 + digitVal c) cs else none
  | _ + 1, _, [] => none

/-- A fixed-width numeric field of the RFC3339 grammar. -/
def parseExact (w : Nat) (cs : List Char) : Option (Nat × List Char) :=
  parseDigitsAcc w 0 cs

/-- Scan at most `w` digit characters, stopping early at a non-digit. -/
def parseUptoAux : Nat → Nat → List Char → Nat × List Char
  | 0, acc, cs => (acc, cs)
  | w + 1, acc, c :: cs =>
    if c.isDigit then parseUptoAux w (acc * 10 + digitVal c) cs else (acc, c :: cs)
  | _ + 1, acc, [] => (acc, [])

/-- A padded numeric field of a chrono format string: one to `w` digits. -/
def parseUpto (w : Nat) (cs : List Char) : Option (Nat × List Char) :=
  match cs with
  | c :: _ => if c.isDigit then some (parseUptoAux w 0 cs) else none
  | [] => none

/-- Scan up to nine fractional digits, returning value, digit count, rest. -/
def parseFracDigits : Nat → Nat → Nat → List Char → Nat × Nat × List Char
  | 0, acc, k, cs => (acc, k, cs)
  | w + 1, acc, k, c :: cs =>
    if c.isDigit then parseFracDigits w (acc * 10 + digitVal c) (k + 1) cs
    else (acc, k, c :: cs)
  | _ + 1, acc, k, [] => (acc, k, [])

/-- A `.`-introduced fractional-second field (`%.f` and the RFC3339
fraction): a dot followed by at least one digit, scaled to nanoseconds. -/
def parseFraction (cs : List Char) : Option (Nat × List Char) :=
  match cs with
  | '.' :: rest =>
    match rest with
    | c :: _ =>
      if c.isDigit then
        let (v, k, rest2) := parseFracDigits 9 0 0 rest
        some (v * 10 ^ (9 - k), rest2)
      else none
    | [] => none
  | _ => none

/-- The optional fractional-second field: `%.f` and the RFC3339 fraction
match the empty string when no dot follows the seconds. -/
def parseOptFraction (cs : List Char) : Option (Nat × List Char) :=
  match cs with
  | '.' :: _ => parseFraction cs
  | _ => some (0, cs)

/-- Gregorian leap-year rule. -/
def isLeapYear (y : Nat) : Bool :=
  (y % 4 = 0 && y % 100 ≠ 0) || (y % 400 = 0)

/-- Days in a month of the proleptic Gregorian calendar. -/
def daysInMonth (y m : Nat) : Nat :=
  if m = 2 then (if isLeapYear y then 29 else 28)
  else if m = 4 ∨ m = 6 ∨ m = 9 ∨ m = 11 then 30
  else 31

/-- The field-range validation chrono performs when building a
`NaiveDate`/`NaiveTime` from parsed fields. -/
def validCivil (d : NaiveDT) : Bool :=
  1 ≤ d.month && d.month ≤ 12 && 1 ≤ d.day && d.day ≤ daysInMonth d.year d.month
    && d.hour ≤ 23 && d.minute ≤ 59 && d.second ≤ 59

/-- The RFC3339 numeric offset tail `HH:MM` (in minutes). -/
def parseOffsetHM (cs : List Char) : Option (Nat × List Char) := do
  let (h, cs) ← parseExact 2 cs
  let cs ← pTag ':' cs
  let (m, cs) ← parseExact 2 cs
  if h ≤ 23 && m ≤ 59 then some (h * 60 + m, cs) else none

/-- The RFC3339 offset: `Z`/`z` or a signed `HH:MM`. -/
def parseOffset (cs : List Char) : Option (Int × List Char) :=
  match cs with
  | 'Z' :: rest => some (0, rest)
  | 'z' :: rest => some (0, rest)
  | '+' :: rest => (parseOffsetHM rest).map (fun p => ((p.1 : Int), p.2))
  | '-' :: rest => (parseOffsetHM rest).map (fun p => (-(p.1 : Int), p.2))
  | _ => none

/-- `chrono::DateTime::<FixedOffset>::parse_from_rfc3339`: fixed-width civil
fields, an optional fraction, and a mandatory offset, with chrono's range
validation; the whole input must be consumed. -/
def parseRFC3339 (cs : List Char) : Option OffsetDT := do
  let (y, cs) ← parseExact 4 cs
  let cs ← pTag '-' cs
  let (mo, cs) ← parseExact 2 cs
  let cs ← pTag '-' cs
  let (d, cs) ← parseExact 2 cs
  let cs ← pTag 'T' cs
  let (h, cs) ← parseExact 2 cs
  let cs ← pTag ':' cs
  let (mi, cs) ← parseExact 2 cs
  let cs ← pTag ':' cs
  let (s, cs) ← parseExact 2 cs
  let (ns, cs) ← parseOptFraction cs
  let (off, cs) ← parseOffset cs
  let civil : NaiveDT :=
    { year := y, month := mo, day := d, hour := h, minute := mi,
      second := s, nanos := ns }
  if cs.isEmpty && validCivil civil then
    some { civil := civil, offsetMinutes := off }
  else
    none

/-- `chrono::NaiveDateTime::parse_from_str` with format
`%Y-%m-%dT%H:%M:%S%.f`: flexibly padded numeric fields, an optional
fraction, no offset; the whole input must be consumed. -/
def parseNaive (cs : List Char) : Option NaiveDT := do
  let (y, cs) ← parseUpto 4 cs
  let cs ← pTag '-' cs
  let (mo, cs) ← parseUpto 2 cs
  let cs ← pTag '-' cs
  let (d, cs) ← parseUpto 2 cs
  let cs ← pTag 'T' cs
  let (h, cs) ← parseUpto 2 cs
  let cs ← pTag ':' cs
  let (mi, cs) ← parseUpto 2 cs
  let cs ← pTag ':' cs
  let (s, cs) ← parseUpto 2 cs
  let (ns, cs) ← parseOptFraction cs
  let civil : NaiveDT :=
    { year := y, month := mo, day := d, hour := h, minute := mi,
      second := s, nanos := ns }
  if cs.isEmpty && validCivil civil then some civil else none

/-- `impl FromStr for DateTime` (core xsd.rs, lines 25-37): try the RFC3339
grammar first; only if it fails, try the naive grammar. -/
def dateTimeFromStr (s : String) : Option DateTime :=
  match parseRFC3339 s.data with
  | some withOffset => some (DateTime.WithOffset withOffset)
  | none => (parseNaive s.data).map DateTime.Naive

/-- The `Naive` arm of `impl Display for DateTime` (core xsd.rs, lines
52-63): zero-padded civil fields and a `{:04}`-formatted millisecond count
(`timestamp_subsec_millis`, i.e. `nanos / 1_000_000`) as the fraction. -/
def displayNaive (d : NaiveDT) : List Char :=
  padNum 4 d.year ++ ['-'] ++ padNum 2 d.month ++ ['-'] ++ padNum 2 d.day
    ++ ['T'] ++ padNum 2 d.hour ++ [':'] ++ padNum 2 d.minute ++ [':']
    ++ padNum 2 d.second ++ ['.'] ++ padNum 4 (d.nanos / 1000000)

/-- The `WithOffset` arm of `impl Display for DateTime` (core xsd.rs, lines
64-66): `to_rfc3339_opts(SecondsFormat::Secs, false)` — seconds precision
(the fractional part is dropped), and an always-numeric `±HH:MM` offset. -/
def displayWithOffset (o : OffsetDT) : List Char :=
  padNum 4 o.civil.year ++ ['-'] ++ padNum 2 o.civil.month ++ ['-']
    ++ padNum 2 o.civil.day ++ ['T'] ++ padNum 2 o.civil.hour ++ [':']
    ++ padNum 2 o.civil.minute ++ [':'] ++ padNum 2 o.civil.second
    ++ (if o.offsetMinutes < 0 then ['-'] else ['+'])
    ++ padNum 2 (o.offsetMinutes.natAbs / 60) ++ [':']
    ++ padNum 2 (o.offsetMinutes.natAbs % 60)

/-- `impl Display for DateTime` (core xsd.rs, lines 49-69). -/
def displayDateTime : DateTime → List Char
  | DateTime.Naive d => displayNaive d
  | DateTime.WithOffset o => displayWithOffset o

/-- Days from the civil epoch 1970-01-01 of a proleptic Gregorian date
(Howard Hinnant's `days_from_civil`, the algorithm underlying chrono's day
numbering). -/
def daysFromCivil (y : Int) (m d : Nat) : Int :=
  let yAdj : Int := if m ≤ 2 then y - 1 else y
  let era : Int := (if 0 ≤ yAdj then yAdj else yAdj - 399).fdiv 400
  let yoe : Int := yAdj - era * 400
  let mp : Int := ((m : Int) + 9) % 12
  let doy : Int := (153 * mp + 2).fdiv 5 + (d : Int) - 1
  let doe : Int := yoe * 365 + yoe.fdiv 4 - yoe.fdiv 100 + doy
  era * 146097 + doe - 719468

/-- Nanoseconds from the epoch of a civil date-time read as UTC. -/
def epochNanos (l : NaiveDT) : Int :=
  ((daysFromCivil (l.year : Int) l.month l.day) * 86400
      + (l.hour : Int) * 3600 + (l.minute : Int) * 60 + (l.second : Int))
    * 1000000000 + (l.nanos : Int)

/-- The UTC instant of an offset date-time. -/
def instantNanos (o : OffsetDT) : Int :=
  epochNanos o.civil - o.offsetMinutes * 60 * 1000000000

/-- `PartialEq` of `xsd::DateTime` as derived in the source: variant-wise,
with `chrono::NaiveDateTime` comparing fields and
`chrono::DateTime<FixedOffset>` comparing the UTC instants (chrono's
`PartialEq` ignores the offset). -/
def dtEq : DateTime → DateTime → Bool
  | DateTime.Naive a, DateTime.Naive b => a = b
  | DateTime.WithOffset a, DateTime.WithOffset b =>
    instantNanos a = instantNanos b
  | _, _ => false

/-- The calendar validity a `DateTime` value produced by a successful chrono
parse always has, plus the bounds within which `to_rfc3339` emits the
fixed-width fields its own parser accepts (chrono years beyond 9999 print
with five digits, which `parse_from_rfc3339` rejects). -/
def validDateTime : DateTime → Prop
  | DateTime.Naive d => validCivil d = true ∧ d.year ≤ 9999
  | DateTime.WithOffset o =>
    validCivil o.civil = true ∧ o.civil.year ≤ 9999 ∧ o.offsetMinutes.natAbs ≤ 1439

/-- A `DateTime` whose sub-second part is zero. -/
def zeroSubsec : DateTime → Prop
  | DateTime.Naive d => d.nanos = 0
  | DateTime.WithOffset o => o.civil.nanos = 0

/-- The content buffer `TaggedContentVisitor` accumulates over the whole
object (a `BTreeMap` built by inserting every entry in order). -/
def contentOf (entries : List (String × Json)) : List (String × Json) :=
  entries.foldl (fun c kv => btreeInsert c kv.1 kv.2) []

/-- A concrete two-subtype envelope table for exercising the polymorphic
dispatch: the `Base` and `SubA` decoders both accept any buffered content. -/
def c2Table : List (String × Decoder String) :=
  [("Base", fun _ => .ok "base"), ("SubA", fun _ => .ok "subA")]

/-- A concrete simple property for exercising `preferred_property_name`:
schema name `summary`, no explicit tag, no aliases, Normal kind. -/
def summaryDef : SimplePropertyDef :=
  { tag := none, propertyType := "String", aka := [], uri := "u", doc := "d",
    kind := PropertyKind.Normal }

/-- `summaryDef` after `rename_default_name` folds the old default name into
the alias set and installs the preferred name `misc` as the tag. -/
def summaryDefRenamed : SimplePropertyDef :=
  { tag := some "misc", propertyType := "String", aka := ["summary"],
    uri := "u", doc := "d", kind := PropertyKind.Normal }

/-! ## Lemmas

First the decimal-digit toolkit: printing with `natDigits`/`padNum` and
scanning with `parseDigitsAcc`/`parseUptoAux` are mutually inverse. -/

theorem natDigitsRevAux_of_le (n : Nat) :
    ∀ fuel, n ≤ fuel → natDigitsRevAux fuel n = natDigitsRevAux n n := by
  induction n using Nat.strong_induction_on with
  | _ n ih =>
    intro fuel hfuel
    match n, fuel with
    | 0, fuel => cases fuel <;> rfl
    | m + 1, 0 => omega
    | m + 1, f + 1 =>
      have hq : (m + 1) / 10 ≤ m := by omega
      have hrec := ih ((m + 1) / 10) (by omega)
      simp only [natDigitsRevAux]
      rw [hrec f (by omega), hrec m hq]

theorem natDigitsRev_eq (n : Nat) (h : n ≠ 0) :
    natDigitsRev n = digitChar (n % 10) :: natDigitsRev (n / 10) := by
  match n, h with
  | m + 1, _ =>
    show natDigitsRevAux (m + 1) (m + 1) = _
    simp only [natDigitsRevAux]
    rw [natDigitsRevAux_of_le ((m + 1) / 10) m (by omega)]
    rfl

theorem digitChar_isDigit (r : Nat) : (digitChar r).isDigit = true := by
  rcases r with _|_|_|_|_|_|_|_|_|r <;> rfl

theorem digitVal_digitChar (r : Nat) (h : r ≤ 9) : digitVal (digitChar r) = r := by
  rcases r with _|_|_|_|_|_|_|_|_|_|r
  all_goals first
  | rfl
  | omega

theorem natDigitsRev_all_digits (n : Nat) :
    ∀ c ∈ natDigitsRev n, c.isDigit = true := by
  induction n using Nat.strong_induction_on with
  | _ n ih =>
    by_cases h : n = 0
    · subst h; intro c hc; cases hc
    · rw [natDigitsRev_eq n h]
      intro c hc
      rcases List.mem_cons.mp hc with hc | hc
      · subst hc; exact digitChar_isDigit _
      · exact ih (n / 10) (Nat.div_lt_self (Nat.pos_of_ne_zero h) (by omega)) c hc

theorem natDigits_all_digits (n : Nat) : ∀ c ∈ natDigits n, c.isDigit = true := by
  unfold natDigits
  split
  · intro c hc
    simp only [List.mem_singleton] at hc
    subst hc; rfl
  · intro c hc
    exact natDigitsRev_all_digits n c (List.mem_reverse.mp hc)

theorem padNum_all_digits (w n : Nat) : ∀ c ∈ padNum w n, c.isDigit = true := by
  intro c hc
  rcases List.mem_append.mp hc with hc | hc
  · rw [List.eq_of_mem_replicate hc]; rfl
  · exact natDigits_all_digits n c hc

theorem digitsValFrom_append (acc : Nat) (a b : List Char) :
    digitsValFrom acc (a ++ b) = digitsValFrom (digitsValFrom acc a) b := by
  simp [digitsValFrom, List.foldl_append]

theorem digitsValFrom_natDigitsRev (n : Nat) :
    ∀ acc, digitsValFrom acc (natDigitsRev n).reverse
      = acc * 10 ^ (natDigitsRev n).length + n := by
  induction n using Nat.strong_induction_on with
  | _ n ih =>
    intro acc
    by_cases h : n = 0
    · subst h
      simp [natDigitsRev, natDigitsRevAux, digitsValFrom]
    · rw [natDigitsRev_eq n h]
      have hq := ih (n / 10) (Nat.div_lt_self (Nat.pos_of_ne_zero h) (by omega))
      simp only [List.reverse_cons, digitsValFrom_append, List.length_cons]
      rw [hq acc]
      have hd : digitsValFrom (acc * 10 ^ (natDigitsRev (n / 10)).length + n / 10)
          [digitChar (n % 10)]
          = (acc * 10 ^ (natDigitsRev (n / 10)).length + n / 10) * 10 + n % 10 := by
        simp [digitsValFrom, List.foldl,
          digitVal_digitChar (n % 10) (by omega)]
      rw [hd, pow_succ, ← mul_assoc]
      generalize acc * 10 ^ (natDigitsRev (n / 10)).length = A
      omega

theorem digitsValFrom_natDigits (n : Nat) :
    digitsValFrom 0 (natDigits n) = n := by
  unfold natDigits
  split
  · subst ‹n = 0›; rfl
  · rw [digitsValFrom_natDigitsRev n 0]; ring

theorem natDigitsRev_length_le (n : Nat) :
    ∀ w, n < 10 ^ w → (natDigitsRev n).length ≤ w := by
  induction n using Nat.strong_induction_on with
  | _ n ih =>
    intro w h
    by_cases h0 : n = 0
    · subst h0; simp [natDigitsRev, natDigitsRevAux]
    · rw [natDigitsRev_eq n h0]
      have hw : w ≠ 0 := by
        intro hw0; subst hw0; simp at h; omega
      obtain ⟨w', rfl⟩ : ∃ w', w = w' + 1 := ⟨w - 1, by omega⟩
      have hq : n / 10 < 10 ^ w' :=
        Nat.div_lt_of_lt_mul (by rw [← pow_succ']; exact h)
      have := ih (n / 10) (Nat.div_lt_self (Nat.pos_of_ne_zero h0) (by omega)) w' hq
      simp only [List.length_cons]
      omega

theorem natDigits_length_le (n w : Nat) (h : n < 10 ^ w) (hw : 1 ≤ w) :
    (natDigits n).length ≤ w := by
  unfold natDigits
  split
  · simpa using hw
  · simpa using natDigitsRev_length_le n w h

theorem natDigits_length_pos (n : Nat) : 1 ≤ (natDigits n).length := by
  unfold natDigits
  split
  · simp
  · rw [natDigitsRev_eq n ‹n ≠ 0›]
    simp

theorem padNum_length (w n : Nat) (h : n < 10 ^ w) (hw : 1 ≤ w) :
    (padNum w n).length = w := by
  have hle := natDigits_length_le n w h hw
  simp only [padNum, List.length_append, List.length_replicate]
  omega

theorem digitsValFrom_replicate_zero (k : Nat) :
    ∀ acc, digitsValFrom acc (List.replicate k '0') = acc * 10 ^ k := by
  induction k with
  | zero => intro acc; simp [digitsValFrom]
  | succ k ih =>
    intro acc
    simp only [List.replicate_succ, digitsValFrom, List.foldl] at ih ⊢
    rw [show acc * 10 + digitVal '0' = acc * 10 by rfl, ih (acc * 10)]
    ring

theorem digitsValFrom_padNum (w n : Nat) :
    digitsValFrom 0 (padNum w n) = n := by
  simp only [padNum, digitsValFrom_append, digitsValFrom_replicate_zero]
  simpa using digitsValFrom_natDigits n

theorem parseDigitsAcc_append (ds : List Char) :
    ∀ (acc : Nat) (rest : List Char), (∀ c ∈ ds, c.isDigit = true) →
      parseDigitsAcc ds.length acc (ds ++ rest)
        = some (digitsValFrom acc ds, rest) := by
  induction ds with
  | nil => intro acc rest _; rfl
  | cons c ds ih =>
    intro acc rest hd
    simp only [List.length_cons, List.cons_append, List.append_eq, parseDigitsAcc,
      hd c (List.mem_cons_self c ds), if_true]
    rw [ih (acc * 10 + digitVal c) rest (fun x hx => hd x (List.mem_cons_of_mem c hx))]
    rfl

theorem parseExact_padNum (w n : Nat) (rest : List Char)
    (h : n < 10 ^ w) (hw : 1 ≤ w) :
    parseExact w (padNum w n ++ rest) = some (n, rest) := by
  have hlen := padNum_length w n h hw
  have := parseDigitsAcc_append (padNum w n) 0 rest (padNum_all_digits w n)
  rw [hlen, digitsValFrom_padNum] at this
  exact this

theorem parseUptoAux_append (ds : List Char) :
    ∀ (acc : Nat) (rest : List Char), (∀ c ∈ ds, c.isDigit = true) →
      parseUptoAux ds.length acc (ds ++ rest)
        = (digitsValFrom acc ds, rest) := by
  induction ds with
  | nil => intro acc rest _; rfl
  | cons c ds ih =>
    intro acc rest hd
    simp only [List.length_cons, List.cons_append, List.append_eq, parseUptoAux,
      hd c (List.mem_cons_self c ds), if_true]
    rw [ih (acc * 10 + digitVal c) rest (fun x hx => hd x (List.mem_cons_of_mem c hx))]
    rfl

theorem parseUpto_padNum (w n : Nat) (rest : List Char)
    (h : n < 10 ^ w) (hw : 1 ≤ w) :
    parseUpto w (padNum w n ++ rest) = some (n, rest) := by
  have hlen := padNum_length w n h hw
  obtain ⟨c, ds, hds⟩ : ∃ c ds, padNum w n = c :: ds := by
    cases hpn : padNum w n with
    | nil => rw [hpn] at hlen; simp at hlen; omega
    | cons c ds => exact ⟨c, ds, rfl⟩
  have hdig : c.isDigit = true := by
    apply padNum_all_digits w n
    rw [hds]; exact List.mem_cons_self c ds
  have := parseUptoAux_append (padNum w n) 0 rest (padNum_all_digits w n)
  rw [hlen, digitsValFrom_padNum] at this
  rw [hds] at this ⊢
  rw [List.cons_append] at this
  simp only [List.cons_append, parseUpto, hdig, if_true]
  rw [this]

theorem pTag_cons (t : Char) (rest : List Char) : pTag t (t :: rest) = some rest := by
  simp [pTag]

theorem bindSomeStep {α β : Type} (a : α) (f : α → Option β) :
    (do
      let x ← some a
      f x) = f a := rfl

theorem mapSomeStep {α β : Type} (a : α) (f : α → β) :
    (some a).map f = some (f a) := rfl

theorem parseExact_padNum_nil (w n : Nat) (h : n < 10 ^ w) (hw : 1 ≤ w) :
    parseExact w (padNum w n) = some (n, []) := by
  have := parseExact_padNum w n [] h hw
  rwa [List.append_nil] at this

theorem parseOptFraction_minus (rest : List Char) :
    parseOptFraction ('-' :: rest) = some (0, '-' :: rest) := rfl

theorem parseOptFraction_plus (rest : List Char) :
    parseOptFraction ('+' :: rest) = some (0, '+' :: rest) := rfl

theorem parseOptFraction_dot (tail : List Char) :
    parseOptFraction ('.' :: tail) = parseFraction ('.' :: tail) := rfl

theorem parseOffset_minus (rest : List Char) :
    parseOffset ('-' :: rest)
      = (parseOffsetHM rest).map (fun p => (-(p.1 : Int), p.2)) := rfl

theorem parseOffset_plus (rest : List Char) :
    parseOffset ('+' :: rest)
      = (parseOffsetHM rest).map (fun p => ((p.1 : Int), p.2)) := rfl

theorem daysInMonth_le (y m : Nat) : daysInMonth y m ≤ 31 := by
  unfold daysInMonth
  split
  · split <;> omega
  · split <;> omega

theorem parseOffsetHM_pad (m : Nat) (hm : m ≤ 1439) :
    parseOffsetHM (padNum 2 (m / 60) ++ ':' :: padNum 2 (m % 60)) = some (m, []) := by
  unfold parseOffsetHM
  rw [show parseExact 2 (padNum 2 (m / 60) ++ ':' :: padNum 2 (m % 60))
      = some (m / 60, ':' :: padNum 2 (m % 60)) from
    parseExact_padNum 2 (m / 60) _ (by omega) (by omega)]
  simp only [bindSomeStep, pTag_cons, List.nil_append]
  rw [parseExact_padNum_nil 2 (m % 60) (by omega) (by omega)]
  simp only [bindSomeStep]
  have hcond : (decide (m / 60 ≤ 23) && decide (m % 60 ≤ 59)) = true := by
    simp only [Bool.and_eq_true, decide_eq_true_eq]
    omega
  rw [if_pos hcond]
  simp only [Option.some.injEq, Prod.mk.injEq]
  exact ⟨by omega, trivial⟩

/-- The printed RFC3339 form of a valid offset date-time with zero
sub-second part parses back, through the RFC3339 grammar, to the same
value. -/
theorem parseRFC3339_display (o : OffsetDT)
    (hv : validCivil o.civil = true) (hy : o.civil.year ≤ 9999)
    (hoff : o.offsetMinutes.natAbs ≤ 1439) (hns : o.civil.nanos = 0) :
    parseRFC3339 (displayWithOffset o) = some o := by
  obtain ⟨⟨y, mo, d, h, mi, s, ns⟩, off⟩ := o
  simp only at hy hoff hns
  subst hns
  have hb := hv
  simp only [validCivil, Bool.and_eq_true, decide_eq_true_eq] at hb
  have hdm : daysInMonth y mo ≤ 31 := daysInMonth_le y mo
  simp only [displayWithOffset, List.append_assoc, List.singleton_append,
    List.cons_append]
  unfold parseRFC3339
  rw [parseExact_padNum 4 y _ (by omega) (by omega)]
  simp only [bindSomeStep, pTag_cons, List.nil_append]
  rw [parseExact_padNum 2 mo _ (by omega) (by omega)]
  simp only [bindSomeStep, pTag_cons, List.nil_append]
  rw [parseExact_padNum 2 d _ (by omega) (by omega)]
  simp only [bindSomeStep, pTag_cons, List.nil_append]
  rw [parseExact_padNum 2 h _ (by omega) (by omega)]
  simp only [bindSomeStep, pTag_cons, List.nil_append]
  rw [parseExact_padNum 2 mi _ (by omega) (by omega)]
  simp only [bindSomeStep, pTag_cons, List.nil_append]
  rw [parseExact_padNum 2 s _ (by omega) (by omega)]
  simp only [bindSomeStep]
  rcases lt_or_ge off 0 with hsign | hsign
  · rw [if_pos hsign]
    simp only [List.cons_append, List.nil_append, parseOptFraction_minus,
      parseOffset_minus, bindSomeStep]
    rw [parseOffsetHM_pad off.natAbs hoff]
    simp only [mapSomeStep, bindSomeStep, List.isEmpty_nil, Bool.true_and]
    rw [hv, if_pos rfl]
    simp only [Option.some.injEq, OffsetDT.mk.injEq, NaiveDT.mk.injEq]
    refine ⟨trivial, ?_⟩
    omega
  · rw [if_neg (by omega)]
    simp only [List.cons_append, List.nil_append, parseOptFraction_plus,
      parseOffset_plus, bindSomeStep]
    rw [parseOffsetHM_pad off.natAbs hoff]
    simp only [mapSomeStep, bindSomeStep, List.isEmpty_nil, Bool.true_and]
    rw [hv, if_pos rfl]
    simp only [Option.some.injEq, OffsetDT.mk.injEq, NaiveDT.mk.injEq]
    refine ⟨trivial, ?_⟩
    omega

theorem noneBindStep {α β : Type} (f : α → Option β) :
    (do
      let x ← (none : Option α)
      f x) = none := rfl

theorem parseFraction_zero4 : parseFraction ('.' :: padNum 4 0) = some (0, []) := rfl

/-- The printed form of a valid naive date-time with zero sub-second part
parses back, through the naive grammar, to the same value. -/
theorem parseNaive_displayNaive (d : NaiveDT)
    (hv : validCivil d = true) (hy : d.year ≤ 9999) (hns : d.nanos = 0) :
    parseNaive (displayNaive d) = some d := by
  obtain ⟨y, mo, dd, h, mi, s, ns⟩ := d
  simp only at hy hns
  subst hns
  have hb := hv
  simp only [validCivil, Bool.and_eq_true, decide_eq_true_eq] at hb
  have hdm : daysInMonth y mo ≤ 31 := daysInMonth_le y mo
  simp only [displayNaive, Nat.zero_div, List.append_assoc, List.singleton_append,
    List.cons_append]
  unfold parseNaive
  rw [parseUpto_padNum 4 y _ (by omega) (by omega)]
  simp only [bindSomeStep, pTag_cons, List.nil_append]
  rw [parseUpto_padNum 2 mo _ (by omega) (by omega)]
  simp only [bindSomeStep, pTag_cons, List.nil_append]
  rw [parseUpto_padNum 2 dd _ (by omega) (by omega)]
  simp only [bindSomeStep, pTag_cons, List.nil_append]
  rw [parseUpto_padNum 2 h _ (by omega) (by omega)]
  simp only [bindSomeStep, pTag_cons, List.nil_append]
  rw [parseUpto_padNum 2 mi _ (by omega) (by omega)]
  simp only [bindSomeStep, pTag_cons, List.nil_append]
  rw [parseUpto_padNum 2 s _ (by omega) (by omega)]
  simp only [bindSomeStep, parseOptFraction_dot, parseFraction_zero4,
    List.isEmpty_nil, Bool.true_and]
  rw [hv, if_pos rfl]

/-- The RFC3339 grammar rejects the printed form of a naive date-time: after
the seconds and the fraction the offset is missing. -/
theorem parseRFC3339_displayNaive (d : NaiveDT)
    (hv : validCivil d = true) (hy : d.year ≤ 9999) (hns : d.nanos = 0) :
    parseRFC3339 (displayNaive d) = none := by
  obtain ⟨y, mo, dd, h, mi, s, ns⟩ := d
  simp only at hy hns
  subst hns
  have hb := hv
  simp only [validCivil, Bool.and_eq_true, decide_eq_true_eq] at hb
  have hdm : daysInMonth y mo ≤ 31 := daysInMonth_le y mo
  simp only [displayNaive, Nat.zero_div, List.append_assoc, List.singleton_append,
    List.cons_append]
  unfold parseRFC3339
  rw [parseExact_padNum 4 y _ (by omega) (by omega)]
  simp only [bindSomeStep, pTag_cons, List.nil_append]
  rw [parseExact_padNum 2 mo _ (by omega) (by omega)]
  simp only [bindSomeStep, pTag_cons, List.nil_append]
  rw [parseExact_padNum 2 dd _ (by omega) (by omega)]
  simp only [bindSomeStep, pTag_cons, List.nil_append]
  rw [parseExact_padNum 2 h _ (by omega) (by omega)]
  simp only [bindSomeStep, pTag_cons, List.nil_append]
  rw [parseExact_padNum 2 mi _ (by omega) (by omega)]
  simp only [bindSomeStep, pTag_cons, List.nil_append]
  rw [parseExact_padNum 2 s _ (by omega) (by omega)]
  simp only [bindSomeStep, parseOptFraction_dot, parseFraction_zero4]
  rfl

/-! ## Claim C1 -/

/-- C1, counterexample: the decode/encode round trip fails on date-time
scalars with a non-zero fractional second.  `"2015-01-25T12:34:56.5Z"`
decodes (RFC3339 grammar) to a value carrying 500ms; re-encoding goes through
`to_rfc3339_opts(SecondsFormat::Secs, false)`, which drops the fraction, so
decoding the re-encoded string yields a value 500ms earlier — not equal (the
source's `PartialEq`) to the first decode. -/
theorem c1_roundtrip_counterexample :
    dateTimeFromStr "2015-01-25T12:34:56.5Z"
        = some (DateTime.WithOffset
            { civil := { year := 2015, month := 1, day := 25, hour := 12,
                         minute := 34, second := 56, nanos := 500000000 },
              offsetMinutes := 0 })
      ∧ displayDateTime (DateTime.WithOffset
            { civil := { year := 2015, month := 1, day := 25, hour := 12,
                         minute := 34, second := 56, nanos := 500000000 },
              offsetMinutes := 0 })
          = "2015-01-25T12:34:56+00:00".data
      ∧ dateTimeFromStr "2015-01-25T12:34:56+00:00"
          = some (DateTime.WithOffset
              { civil := { year := 2015, month := 1, day := 25, hour := 12,
                           minute := 34, second := 56, nanos := 0 },
                offsetMinutes := 0 })
      ∧ dtEq
          (DateTime.WithOffset
            { civil := { year := 2015, month := 1, day := 25, hour := 12,
                         minute := 34, second := 56, nanos := 500000000 },
              offsetMinutes := 0 })
          (DateTime.WithOffset
            { civil := { year := 2015, month := 1, day := 25, hour := 12,
                         minute := 34, second := 56, nanos := 0 },
              offsetMinutes := 0 }) = false := by
  refine ⟨rfl, rfl, rfl, ?_⟩
  decide

/-- C1 (amended): at the XSD date-time scalar layer the round trip holds for
every value whose fractional-second part is zero (with calendar-valid fields,
a four-digit year, and an in-range offset — exactly what a successful decode
of an RFC3339 document produces): encoding via `Display` and decoding via
`FromStr` returns the identical value, for both the offset grammar and the
naive grammar.  Values with non-zero fractional seconds are not preserved
(see the counterexample). -/
theorem c1_roundtrip_zero_subsec (v : DateTime)
    (hvalid : validDateTime v) (hzero : zeroSubsec v) :
    dateTimeFromStr (String.mk (displayDateTime v)) = some v := by
  cases v with
  | Naive d =>
    simp only [validDateTime] at hvalid
    simp only [zeroSubsec] at hzero
    obtain ⟨hv, hy⟩ := hvalid
    unfold dateTimeFromStr
    dsimp only [displayDateTime]
    rw [parseRFC3339_displayNaive d hv hy hzero]
    rw [parseNaive_displayNaive d hv hy hzero]
    rfl
  | WithOffset o =>
    simp only [validDateTime] at hvalid
    simp only [zeroSubsec] at hzero
    obtain ⟨hv, hy, hoff⟩ := hvalid
    unfold dateTimeFromStr
    dsimp only [displayDateTime]
    rw [parseRFC3339_display o hv hy hoff hzero]

/-- Witness for `c1_roundtrip_zero_subsec` at a concrete offset value. -/
theorem c1_roundtrip_zero_subsec_witness :
    validDateTime (DateTime.WithOffset
        { civil := { year := 2015, month := 1, day := 25, hour := 12,
                     minute := 34, second := 56, nanos := 0 },
          offsetMinutes := -330 })
      ∧ zeroSubsec (DateTime.WithOffset
          { civil := { year := 2015, month := 1, day := 25, hour := 12,
                       minute := 34, second := 56, nanos := 0 },
            offsetMinutes := -330 })
      ∧ dateTimeFromStr (String.mk (displayDateTime (DateTime.WithOffset
          { civil := { year := 2015, month := 1, day := 25, hour := 12,
                       minute := 34, second := 56, nanos := 0 },
            offsetMinutes := -330 })))
        = some (DateTime.WithOffset
            { civil := { year := 2015, month := 1, day := 25, hour := 12,
                         minute := 34, second := 56, nanos := 0 },
              offsetMinutes := -330 }) :=
  ⟨⟨by decide, by decide, by decide⟩, rfl,
    c1_roundtrip_zero_subsec
      (DateTime.WithOffset
        { civil := { year := 2015, month := 1, day := 25, hour := 12,
                     minute := 34, second := 56, nanos := 0 },
          offsetMinutes := -330 })
      ⟨by decide, by decide, by decide⟩ rfl⟩

/-! ## Claim C10 -/

/-- C10: decoding JSON `null` into the Normal-cardinality container
`Property<T>` succeeds with the empty sequence, for every element decoder:
the sequence-shaped parse rejects `null`, and the `Option` fallback then
accepts `null` as absence. -/
theorem c10_property_null_is_empty {α : Type} (dec : Decoder α) :
    propertyDecode dec Json.null = .ok ([] : List α) := rfl

/-! ## Claim C7 -/

/-- C7: `Or<L, R>` decoding is ordered: a successful decode as `L` always
wins (so any input decodable as both resolves to the `L` variant); `R` is
attempted against the same input only after `L` fails; and when both fail,
the error carries both underlying messages. -/
theorem c7_or_decode_ordered {α β : Type} (dl : Decoder α) (dr : Decoder β)
    (j : Json) :
    (∀ l, dl j = .ok l → orDecode dl dr j = .ok (OrSum.Prim l))
    ∧ (∀ e1 r, dl j = .error e1 → dr j = .ok r →
        orDecode dl dr j = .ok (OrSum.Snd r))
    ∧ (∀ e1 e2, dl j = .error e1 → dr j = .error e2 →
        orDecode dl dr j = .error (e1 ++ " and " ++ e2)) := by
  refine ⟨?_, ?_, ?_⟩
  · intro l hl
    simp [orDecode, hl]
  · intro e1 r h1 hr
    simp [orDecode, h1, hr]
  · intro e1 e2 h1 h2
    simp [orDecode, h1, h2]

/-- Witness for `c7_or_decode_ordered`: a value both branches accept
resolves to `Prim`. -/
theorem c7_or_decode_ordered_witness :
    (fun _ => (.ok 7 : Except String Nat)) Json.null = .ok 7
    ∧ orDecode (fun _ => (.ok 7 : Except String Nat))
        (fun _ => (.ok "x" : Except String String)) Json.null
      = .ok (OrSum.Prim 7) :=
  ⟨rfl,
    (c7_or_decode_ordered (fun _ => .ok 7) (fun _ => .ok "x") Json.null).1 7 rfl⟩

/-! ## Claim C6 -/

/-- C6: the generated serializer for a Normal-kind property omits the wire
key when the sequence is empty, emits the single element bare when it has
exactly one element, and emits a JSON array when it has two or more. -/
theorem c6_normal_encode_shape {α : Type} (tag : String) (enc : α → Json)
    (xs : List α) :
    (xs = [] → normalPropertyEntry tag enc xs = [])
    ∧ (∀ x, xs = [x] → normalPropertyEntry tag enc xs = [(tag, enc x)])
    ∧ (2 ≤ xs.length →
        normalPropertyEntry tag enc xs = [(tag, Json.arr (xs.map enc))]) := by
  refine ⟨?_, ?_, ?_⟩
  · intro h; subst h; rfl
  · intro x h; subst h; rfl
  · intro h
    match xs, h with
    | x :: y :: rest, _ =>
      simp only [normalPropertyEntry, shouldSkipProperty, List.isEmpty_cons,
        Bool.false_eq_true, if_false, serializeProperty, List.length_cons]
      rw [if_pos (by omega)]

/-- Witness for `c6_normal_encode_shape` at a two-element sequence. -/
theorem c6_normal_encode_shape_witness :
    2 ≤ ([Json.str "a", Json.str "b"] : List Json).length
    ∧ normalPropertyEntry "t" (fun j => j) [Json.str "a", Json.str "b"]
      = [("t", Json.arr [Json.str "a", Json.str "b"])] :=
  ⟨by decide,
    (c6_normal_encode_shape "t" (fun j => j) [Json.str "a", Json.str "b"]).2.2
      (by decide)⟩

/-! ## Claim C8 -/

/-- C8: the duration grammar in the source makes the `T` time section
mandatory (`parse_duration` applies `parse_duration_time_section` without
`opt`), so `"P3Y"` — which the claim says parses with all other components
zero — is rejected; the full example `"P3Y6M4DT12H30M5S"` parses to years 3,
months 6, days 4 and a 12h30m5s time component as the claim states. -/
theorem c8_duration_grammar :
    parseDuration "P3Y".data = none
    ∧ durationFromStr "P3Y6M4DT12H30M5S"
      = some { negative := false, years := 3, months := 6, days := 4,
               secs := 45005 } :=
  ⟨rfl, rfl⟩

/-! ## Claim C9 -/

/-- C9, counterexample: re-encoding does not give every component its own
magnitude — the months component is formatted from the years field
(`"{}M", self.years`, xsd.rs line 99), so a duration with years 3 and months
6 re-encodes as `"P3Y3M4DT12H30M5S"`; and the `T` section is not omitted
when all time components are zero — the bitwise-not guard on line 104 emits
a dangling `T` (`"P3YT"`). -/
theorem c9_duration_display_counterexample :
    displayDuration { negative := false, years := 3, months := 6, days := 4,
                      secs := 45005 }
      = "P3Y3M4DT12H30M5S".data
    ∧ "P3Y3M4DT12H30M5S".data ≠ "P3Y6M4DT12H30M5S".data
    ∧ displayDuration { negative := false, years := 3, months := 0, days := 0,
                        secs := 0 }
      = "P3YT".data :=
  ⟨rfl, by decide, rfl⟩

/-- C9 (amended): re-encoding emits, in order, `P`, the sign, and the
non-zero calendar components — but the months component borrows the years
magnitude (its own value only controls presence) — followed by a `T` section
that is omitted only when the total second count is exactly `-1` (in
particular a bare `T` appears when the time is zero), containing the non-zero
truncated hour count and mod-60 minute and second remainders. -/
theorem c9_duration_display_amended (d : Duration) :
    displayDuration d = durationDisplayAmended d := by
  have h : (-(d.secs + 1) ≠ 0) ↔ ¬ d.secs = -1 := by omega
  unfold displayDuration durationDisplayAmended
  simp only [h]
  by_cases hc : d.secs = -1 <;> simp [hc]

/-! ## Claim C3 -/

/-- C3: the two generators disagree on a `Required` language-container
property.  The complete generator (`generate_deserialize_impl`, derive
lib.rs) raises `missing field` for whichever of the two wire keys did not
occur — so a document carrying only the default-value key is rejected —
while the build step of the generator invoked by `build.rs`
(`gen_build_field`, derive gen.rs) accepts it and fails only when both
halves are absent, as the claim states. -/
theorem c3_required_lang_divergence :
    buildRequiredLangLib "content" "contentMap"
        (some (some (Json.str "hello"))) (none : Option (List (String × Json)))
      = .error "missing field contentMap"
    ∧ buildRequiredLangGen "content"
        (some (Json.str "hello")) (none : Option (List (String × Json)))
      = .ok { default := some (Json.str "hello"), perLang := [] }
    ∧ buildRequiredLangGen "content"
        (none : Option Json) (none : Option (List (String × Json)))
      = .error "missing field content" :=
  ⟨rfl, rfl, rfl⟩

/-! ## Claim C4 -/

/-- C4: for a property with a `preferred_property_name` override, both
generators emit the override as the canonical wire tag; the rename pipeline
of the generator invoked by `build.rs` (`rename_default_name`) folds the old
default name into the alias set so that its recognized-key table resolves
the preferred and the old name to the same property — decoding a document
under either key yields the same value.  The complete generator
(`generate_deserialize_impl`, derive lib.rs) never applies the rename to its
recognized keys, so the preferred name is an unrecognized key there and a
document carrying it decodes to the empty property. -/
theorem c4_preferred_name_divergence :
    renameDefaultNameSimple (some (PreferredPropertyName.Simple "misc"))
        "summary" summaryDef
      = some summaryDefRenamed
    ∧ serializeTagSimple "summary" summaryDefRenamed = "misc"
    ∧ serializeTagLib (some (PreferredPropertyName.Simple "misc")) "summary"
        summaryDef
      = some "misc"
    ∧ recognizedKeysSimple "summary" summaryDefRenamed = ["summary", "misc"]
    ∧ decodeFieldMerged (propertyDecode (fun j => (.ok j : Except String Json)))
        propertyMerge
        (fun k => (recognizedKeysSimple "summary" summaryDefRenamed).contains k)
        [("misc", Json.str "x")]
      = decodeFieldMerged (propertyDecode (fun j => .ok j)) propertyMerge
          (fun k => (recognizedKeysSimple "summary" summaryDefRenamed).contains k)
          [("summary", Json.str "x")]
    ∧ decodeFieldMerged (propertyDecode (fun j => (.ok j : Except String Json)))
        propertyMerge
        (fun k => (recognizedKeysSimple "summary" summaryDef).contains k)
        [("misc", Json.str "x")]
      = .ok none :=
  ⟨rfl, rfl, rfl, rfl, rfl, rfl⟩

/-! ## Claim C5 -/

theorem exceptBindOk {ε α β : Type} (a : α) (f : α → Except ε β) :
    (do
      let x ← (.ok a : Except ε α)
      f x) = f a := rfl

theorem lookupAssoc_insertAssoc {γ : Type} (m : List (String × γ))
    (k : String) (v : γ) (k' : String) :
    lookupAssoc (insertAssoc m k v) k'
      = if k = k' then some v else lookupAssoc m k' := by
  induction m with
  | nil => simp [insertAssoc, lookupAssoc]
  | cons kv0 rest ih =>
    obtain ⟨k0, v0⟩ := kv0
    simp only [insertAssoc]
    by_cases h0 : k0 = k
    · subst h0
      simp only [if_pos rfl, lookupAssoc]
      by_cases h' : k0 = k' <;> simp [h']
    · simp only [if_neg h0, lookupAssoc]
      by_cases h' : k0 = k'
      · subst h'
        rw [if_pos rfl, if_neg (fun hk => h0 hk.symm), if_pos rfl]
      · rw [if_neg h', if_neg h', ih]

theorem lookupAssoc_eq_none {γ : Type} (m : List (String × γ)) (k : String)
    (h : k ∉ m.map Prod.fst) : lookupAssoc m k = none := by
  induction m with
  | nil => rfl
  | cons kv0 rest ih =>
    obtain ⟨k0, v0⟩ := kv0
    simp only [List.map_cons, List.mem_cons] at h
    push_neg at h
    have hne : ¬ k0 = k := fun hk => h.1 hk.symm
    simp only [lookupAssoc, if_neg hne]
    exact ih h.2

theorem lookupAssoc_mapExtend {γ : Type} (other : List (String × γ)) :
    ∀ (m : List (String × γ)) (k : String), (other.map Prod.fst).Nodup →
      lookupAssoc (mapExtend m other) k
        = (lookupAssoc other k).orElse (fun _ => lookupAssoc m k) := by
  induction other with
  | nil => intro m k _; rfl
  | cons kv t ih =>
    intro m k hnd
    obtain ⟨k0, v0⟩ := kv
    simp only [List.map_cons, List.nodup_cons] at hnd
    obtain ⟨hk0, hnd⟩ := hnd
    rw [show mapExtend m ((k0, v0) :: t) = mapExtend (insertAssoc m k0 v0) t
      from rfl]
    rw [ih (insertAssoc m k0 v0) k hnd]
    by_cases hk : k0 = k
    · subst hk
      rw [lookupAssoc_eq_none t k0 hk0]
      simp [lookupAssoc, lookupAssoc_insertAssoc]
    · simp only [lookupAssoc, if_neg hk, lookupAssoc_insertAssoc,
        if_neg hk]

/-- C5: when a second occurrence of a recognized wire key reaches the same
property, a Normal-kind slot merges — sequence values concatenate, and a
language map takes the union of language keys with the later value winning
for the same language — while a Required/Functional-kind slot fails with a
duplicate-field error naming the property. -/
theorem c5_duplicate_key_handling {β γ : Type}
    (dec : Decoder (List β)) (decM : Decoder (List (String × List β)))
    (decU : Decoder γ)
    (name : String) (isKey : String → Bool) (k1 k2 : String) (v1 v2 : Json)
    (xs1 xs2 : List β) (m1 m2 : List (String × List β)) (u1 : γ)
    (hk1 : isKey k1 = true) (hk2 : isKey k2 = true)
    (h1 : dec v1 = .ok xs1) (h2 : dec v2 = .ok xs2)
    (hm1 : decM v1 = .ok m1) (hm2 : decM v2 = .ok m2)
    (hnd : (m2.map Prod.fst).Nodup)
    (hu1 : decU v1 = .ok u1) :
    decodeFieldMerged dec propertyMerge isKey [(k1, v1), (k2, v2)]
        = .ok (some (xs1 ++ xs2))
    ∧ decodeFieldMerged decM mapExtend isKey [(k1, v1), (k2, v2)]
        = .ok (some (mapExtend m1 m2))
    ∧ (∀ lang, lookupAssoc (mapExtend m1 m2) lang
        = (lookupAssoc m2 lang).orElse (fun _ => lookupAssoc m1 lang))
    ∧ decodeFieldUnique decU name isKey [(k1, v1), (k2, v2)]
        = .error ("duplicate field " ++ name) := by
  refine ⟨?_, ?_, ?_, ?_⟩
  · simp [decodeFieldMerged, List.foldlM, hk1, hk2, h1, h2, propertyMerge,
      Except.map, exceptBindOk]
  · simp [decodeFieldMerged, List.foldlM, hk1, hk2, hm1, hm2,
      Except.map, exceptBindOk]
  · intro lang
    exact lookupAssoc_mapExtend m2 m1 lang hnd
  · simp [decodeFieldUnique, List.foldlM, hk1, hk2, hu1,
      Except.map, exceptBindOk]

/-- Witness for `c5_duplicate_key_handling`: two occurrences of the key
`prop` with string values through the real `Property` deserializer. -/
theorem c5_duplicate_key_handling_witness :
    propertyDecode (fun j => (.ok j : Except String Json)) (Json.str "a")
        = .ok [Json.str "a"]
    ∧ decodeFieldMerged (propertyDecode (fun j => (.ok j : Except String Json)))
        propertyMerge (fun k => k == "prop")
        [("prop", Json.str "a"), ("prop", Json.str "b")]
      = .ok (some [Json.str "a", Json.str "b"])
    ∧ decodeFieldUnique
        (fun j => match j with
          | Json.str s => (.ok s : Except String String)
          | _ => .error "expected a string")
        "prop" (fun k => k == "prop")
        [("prop", Json.str "a"), ("prop", Json.str "b")]
      = .error ("duplicate field " ++ "prop") := by
  refine ⟨rfl, ?_, ?_⟩
  · exact (c5_duplicate_key_handling
      (propertyDecode (fun j => .ok j))
      (fun j => match j with
        | Json.str s => .ok [(s, [Json.str s])]
        | _ => .error "expected a string")
      (fun j => match j with
        | Json.str s => .ok s
        | _ => .error "expected a string")
      "prop" (fun k => k == "prop") "prop" "prop" (Json.str "a") (Json.str "b")
      [Json.str "a"] [Json.str "b"]
      [("a", [Json.str "a"])] [("b", [Json.str "b"])] "a"
      rfl rfl rfl rfl rfl rfl (by simp) rfl).1
  · exact (c5_duplicate_key_handling
      (propertyDecode (fun j => .ok j))
      (fun j => match j with
        | Json.str s => .ok [(s, [Json.str s])]
        | _ => .error "expected a string")
      (fun j => match j with
        | Json.str s => .ok s
        | _ => .error "expected a string")
      "prop" (fun k => k == "prop") "prop" "prop" (Json.str "a") (Json.str "b")
      [Json.str "a"] [Json.str "b"]
      [("a", [Json.str "a"])] [("b", [Json.str "b"])] "a"
      rfl rfl rfl rfl rfl rfl (by simp) rfl).2.2.2

/-! ## Claim C2 -/

theorem exceptBindErr {ε α β : Type} (e : ε) (f : α → Except ε β) :
    (do
      let x ← (.error e : Except ε α)
      f x) = .error e := rfl

theorem taggedStep_other (tagKey : String) (decTag : Decoder String)
    (st : Option String × List (String × Json)) (kv : String × Json)
    (h : kv.1 ≠ tagKey) :
    taggedStep tagKey decTag st kv
      = .ok (st.1, btreeInsert st.2 kv.1 kv.2) := by
  simp only [taggedStep, if_neg h]
  rfl

theorem taggedStep_tag_ok (tagKey : String) (decTag : Decoder String)
    (st : Option String × List (String × Json)) (kv : String × Json)
    (s : String) (h : kv.1 = tagKey) (hd : decTag kv.2 = .ok s) :
    taggedStep tagKey decTag st kv
      = .ok (some s, btreeInsert st.2 kv.1 kv.2) := by
  simp [taggedStep, h, hd, exceptBindOk]

theorem taggedStep_tag_err (tagKey : String) (decTag : Decoder String)
    (st : Option String × List (String × Json)) (kv : String × Json)
    (e : String) (h : kv.1 = tagKey) (hd : decTag kv.2 = .error e) :
    taggedStep tagKey decTag st kv = .error e := by
  simp [taggedStep, h, hd, exceptBindErr]

theorem foldlM_taggedStep_notag (tagKey : String) (decTag : Decoder String)
    (entries : List (String × Json)) (h : ∀ kv ∈ entries, kv.1 ≠ tagKey) :
    ∀ st, List.foldlM (taggedStep tagKey decTag) st entries
      = .ok (st.1, entries.foldl (fun c kv => btreeInsert c kv.1 kv.2) st.2) := by
  induction entries with
  | nil => intro st; rfl
  | cons kv rest ih =>
    intro st
    rw [List.foldlM_cons,
      taggedStep_other tagKey decTag st kv (h kv (List.mem_cons_self kv rest)),
      exceptBindOk,
      ih (fun x hx => h x (List.mem_cons_of_mem kv hx)),
      List.foldl_cons]

/-- C2, counterexample: with an envelope of subtypes `Base` and `SubA` whose
`Base` decoder accepts everything, decoding `{"type": "Unknown"}` does not
fall back to the base type — the generated tag visitor raises
`missing field type` for the unrecognized discriminant and the whole decode
fails, even though the base-type decode would have succeeded. -/
theorem c2_unknown_discriminant_counterexample :
    envelopeDecode c2Table "Base" (Json.obj [("type", Json.str "Unknown")])
      = .error "missing field type"
    ∧ (lookupAssoc c2Table "Base").isSome = true
    ∧ (fun (_ : Json) => (.ok "base" : Except String String))
        (Json.obj [("type", Json.str "Unknown")]) = .ok "base" :=
  ⟨rfl, rfl, rfl⟩

/-- C2 (amended): when the `"type"` value is a string naming a known
subtype, the whole buffered object is decoded by that subtype's deserializer;
when the `"type"` value is a string naming no known subtype, decode fails
immediately with `missing field type` and no base-type fallback is attempted;
when the `"type"` key is absent, dispatch falls through to the tag enum's
default label (a `Default` impl the generated enum does not actually derive),
not to a base-type fallback rule. -/
theorem c2_envelope_dispatch {τ : Type} (table : List (String × Decoder τ))
    (defaultLabel : String) (a b : List (String × Json)) (s : String)
    (ha : ∀ kv ∈ a, kv.1 ≠ "type") (hb : ∀ kv ∈ b, kv.1 ≠ "type") :
    (∀ dec, lookupAssoc table s = some dec →
      envelopeDecode table defaultLabel
          (Json.obj (a ++ ("type", Json.str s) :: b))
        = dec (Json.obj (contentOf (a ++ ("type", Json.str s) :: b))))
    ∧ (lookupAssoc table s = none →
      envelopeDecode table defaultLabel
          (Json.obj (a ++ ("type", Json.str s) :: b))
        = .error "missing field type")
    ∧ (∀ dec0, lookupAssoc table defaultLabel = some dec0 →
      envelopeDecode table defaultLabel (Json.obj (a ++ b))
        = dec0 (Json.obj (contentOf (a ++ b)))) := by
  refine ⟨?_, ?_, ?_⟩
  · intro dec hdec
    simp only [envelopeDecode, taggedContentVisit]
    rw [List.foldlM_append, foldlM_taggedStep_notag "type" _ a ha, exceptBindOk,
      List.foldlM_cons,
      taggedStep_tag_ok "type" _ _ ("type", Json.str s) s rfl
        (by simp [envelopeFieldsDecode, hdec]),
      exceptBindOk,
      foldlM_taggedStep_notag "type" _ b hb, exceptBindOk]
    simp [hdec, contentOf, List.foldl_append, List.foldl_cons]
  · intro hdec
    simp only [envelopeDecode, taggedContentVisit]
    rw [List.foldlM_append, foldlM_taggedStep_notag "type" _ a ha, exceptBindOk,
      List.foldlM_cons,
      taggedStep_tag_err "type" _ _ ("type", Json.str s) "missing field type" rfl
        (by simp [envelopeFieldsDecode, hdec]),
      exceptBindErr, exceptBindErr]
  · intro dec0 hdec
    simp only [envelopeDecode, taggedContentVisit]
    rw [List.foldlM_append, foldlM_taggedStep_notag "type" _ a ha, exceptBindOk,
      foldlM_taggedStep_notag "type" _ b hb, exceptBindOk]
    simp [hdec, contentOf, List.foldl_append]

/-- Witness for `c2_envelope_dispatch`: a known discriminant dispatches to
its subtype's decoder over the buffered content. -/
theorem c2_envelope_dispatch_witness :
    lookupAssoc c2Table "SubA" = some (fun _ => .ok "subA")
    ∧ envelopeDecode c2Table "Base"
        (Json.obj ([] ++ ("type", Json.str "SubA") :: []))
      = (fun _ => (.ok "subA" : Except String String))
          (Json.obj (contentOf ([] ++ ("type", Json.str "SubA") :: []))) :=
  ⟨rfl,
    (c2_envelope_dispatch c2Table "Base" [] [] "SubA"
      (fun kv hkv => absurd hkv (List.not_mem_nil kv))
      (fun kv hkv => absurd hkv (List.not_mem_nil kv))).1
      (fun _ => .ok "subA") rfl⟩

end ActivityVocab
